import Mathlib

/-!
Verification of the dnsleak correlation/aggregation engine (src/main.go).

Strings are modelled as `List Char` (Go strings are byte slices; all data
here is ASCII).  The expiring key-value store (the external ttl_map
dependency) is modelled from the spec as an association list from key to
(value, expiry deadline), with an explicit `now : Nat` clock.  The write
path `Handle.ServeDNS` (main.go lines 30-51), the split/union step of
`lookup` (lines 90-97) and the enrichment loop of `lookup` (lines 99-129)
are translated directly from the source.  Go's nondeterministic map
iteration order in the enrichment loop is made explicit as a list `order`
constrained by `IterOrder` to enumerate the key set of `uniqips`.
-/

set_option autoImplicit false

/-- Go strings, as lists of characters. -/
abbrev Str := List Char

/-- Modelled from the spec: the expiring correlation store (the external
ttl_map library, not part of src/): an association list from key to
(value, expiry deadline).  `heapSet` keeps at most one binding per key. -/
abbrev Heap := List (Str × Str × Nat)

/-- Modelled from the spec: `cache.Get(key)` returns the stored value while
`now` is before the deadline, and the empty string when the key is absent
or expired (lazy expiry checked on read, spec §4.1). -/
def heapGet (now : Nat) : Heap → Str → Str
  | [], _ => []
  | (k', v, dl) :: rest, k =>
    if k' = k then (if now < dl then v else []) else heapGet now rest k

/-- Modelled from the spec: `cache.Set(key, value, ttl)` stores `value`
under `key` with expiry deadline `now + ttl`, replacing any previous
binding for `key`. -/
def heapSet (now : Nat) (h : Heap) (k v : Str) (ttl : Nat) : Heap :=
  (k, v, now + ttl) :: h.filter (fun e => e.1 ≠ k)

/-- Go's `strings.Split(s, ",")`: splits at every comma;
`Split("", ",") = [""]` (main.go line 93). -/
def splitOnComma : Str → List Str
  | [] => [[]]
  | c :: rest =>
    if c = ',' then [] :: splitOnComma rest
    else
      let r := splitOnComma rest
      (c :: r.headI) :: r.tail

/-- The remote address handed to `ServeDNS` by the dns library: a
`*net.UDPAddr`, a `*net.TCPAddr`, or some other shape (main.go 32-37). -/
inductive RemoteAddr where
  | udp (ip : Str)
  | tcp (ip : Str)
  | other
  deriving DecidableEq, Repr

/-- The `ip` string extracted from the remote address in main.go 31-37:
it stays `""` when the address is neither UDP nor TCP. -/
def remoteIP : RemoteAddr → Str
  | .udp ip => ip
  | .tcp ip => ip
  | .other => []

/-- The store-level append of main.go 48-50: read the current (possibly
expired/absent) value, concatenate `"," + ip`, write back with TTL 300 s. -/
def record (now : Nat) (h : Heap) (domain ip : Str) : Heap :=
  heapSet now h domain (heapGet now h domain ++ ',' :: ip) 300

/-- `Handle.ServeDNS` (main.go 30-51).  The `panic("IP not found?")` on an
unrecognized address shape is modelled as `Except.error`; the trailing-byte
strip `domain[:len(domain)-1]` (line 43) is `List.dropLast`. -/
def serveDNS (now : Nat) (h : Heap) (addr : RemoteAddr) (qname : Str) :
    Except Str Heap :=
  let ip := remoteIP addr
  if ip = [] then .error "IP not found?".data
  else .ok (record now h qname.dropLast ip)

/-- The per-domain read of `lookup` (main.go 92-93): get the stored value
and split it into individual addresses.  This is the spec's `Read`. -/
def readStore (now : Nat) (h : Heap) (k : Str) : List Str :=
  splitOnComma (heapGet now h k)

/-- The JSON response entry of `lookup` (main.go 61-65). -/
structure Response where
  ISP : Str
  Country : Str
  IP : Str
  deriving DecidableEq, Repr

/-- The two read-only GeoIP datasets (main.go 23-24), as abstract lookup
functions: `country ip` is `dbCountry.Country(net.ParseIP(ip)).Country.IsoCode`
and `asn ip` is `dbASN.ASN(net.ParseIP(ip))`, returning
`(AutonomousSystemNumber, AutonomousSystemOrganization)`; parse failures
are folded into the error case. -/
structure GeoDB where
  country : Str → Except Str Str
  asn : Str → Except Str (Nat × Str)

/-- Lookup in the `out` map of main.go 99-127 (`out[n]`, with `ok` being
`(findASN out n).isSome`). -/
def findASN : List (Nat × Response) → Nat → Option Response
  | [], _ => none
  | p :: rest, n => if p.1 = n then some p.2 else findASN rest n

/-- The multiset of addresses collected across all requested domains
(main.go 90-97): the key set of `uniqips` is exactly the set of members
of this list. -/
def allIPs (now : Nat) (h : Heap) (domains : List Str) : List Str :=
  (domains.map (fun d => splitOnComma (heapGet now h d))).flatten

/-- `order` is a possible Go map iteration order over the key set of
`uniqips`: a duplicate-free enumeration of the members of `set`. -/
def IterOrder (order set : List Str) : Prop :=
  order.Nodup ∧ (∀ a ∈ order, a ∈ set) ∧ (∀ a ∈ set, a ∈ order)

instance (order set : List Str) : Decidable (IterOrder order set) := by
  unfold IterOrder; infer_instance

/-- The "Humanize" loop of `lookup` (main.go 99-129), iterating the
deduplicated address set in the given order: an empty address string
BREAKS out of the loop (line 103); a failed dataset lookup aborts the
whole request (lines 108-118); an entry is inserted only when its ASN is
not yet a key of `out` (lines 121-127). -/
def humanize (db : GeoDB) : List Str → List (Nat × Response) →
    Except Str (List (Nat × Response))
  | [], out => .ok out
  | ipstr :: rest, out =>
    if ipstr = [] then .ok out
    else
      match db.country ipstr with
      | .error e => .error e
      | .ok iso =>
        match db.asn ipstr with
        | .error e => .error e
        | .ok (num, org) =>
          humanize db rest
            (if (findASN out num).isSome then out
             else out ++ [(num, ⟨org, iso, ipstr⟩)])

/-- The (ASN, Response) pair an address contributes when both dataset
lookups succeed (main.go 121-127); the second component of the default
branch is never consulted. -/
def enrichPair (db : GeoDB) (ip : Str) : Nat × Response :=
  match db.asn ip, db.country ip with
  | .ok (n, org), .ok iso => (n, ⟨org, iso, ip⟩)
  | _, _ => (0, ⟨[], [], []⟩)

/-- Both dataset lookups succeed for `ip`. -/
def resolvesOkB (db : GeoDB) (ip : Str) : Bool :=
  match db.country ip, db.asn ip with
  | .ok _, .ok _ => true
  | _, _ => false

/-- Both dataset lookups succeed for `ip` (propositional form). -/
def ResolvesOk (db : GeoDB) (ip : Str) : Prop := resolvesOkB db ip = true

instance (db : GeoDB) (ip : Str) : Decidable (ResolvesOk db ip) := by
  unfold ResolvesOk; infer_instance

/-- The ASN an address resolves to, when the ASN dataset has it. -/
def asnKey? (db : GeoDB) (ip : Str) : Option Nat :=
  match db.asn ip with
  | .ok p => some p.1
  | .error _ => none

/-- One legal interleaving of two concurrent `ServeDNS` appends to the
same domain: both `cache.Get` reads (main.go 48) are scheduled before
either `cache.Set` write (main.go 50). -/
def racedAppends (now : Nat) (h : Heap) (d a b : Str) : Heap :=
  let va := heapGet now h d ++ ',' :: a
  let vb := heapGet now h d ++ ',' :: b
  let h1 := heapSet now h d va 300
  heapSet now h1 d vb 300

/-- Every stored value starts with the list separator: the invariant the
write path (main.go 48-50) maintains, since a fresh append prefixes the
comma onto the empty string. -/
def HeapInv (h : Heap) : Prop := ∀ e ∈ h, (e.2.1).head? = some ','

instance (h : Heap) : Decidable (HeapInv h) := by
  unfold HeapInv; infer_instance

/-! ## Helper lemmas -/

theorem splitOnComma_ne_nil (s : Str) : splitOnComma s ≠ [] := by
  cases s with
  | nil => simp [splitOnComma]
  | cons c rest =>
    by_cases hc : c = ','
    · simp [splitOnComma, hc]
    · simp [splitOnComma, hc]

theorem splitOnComma_comma_cons (s : Str) :
    splitOnComma (',' :: s) = [] :: splitOnComma s := by
  simp [splitOnComma]

theorem splitOnComma_no_comma (s : Str) (hs : ',' ∉ s) :
    splitOnComma s = [s] := by
  induction s with
  | nil => rfl
  | cons c rest ih =>
    have hc : c ≠ ',' := fun h => hs (h ▸ List.mem_cons_self c rest)
    have hrest : ',' ∉ rest := fun h => hs (List.mem_cons_of_mem c h)
    simp [splitOnComma, hc, ih hrest]

theorem splitOnComma_append (a b : Str) (ha : ',' ∉ a) :
    splitOnComma (a ++ ',' :: b) = a :: splitOnComma b := by
  induction a with
  | nil => simp [splitOnComma_comma_cons]
  | cons c a' ih =>
    have hc : c ≠ ',' := fun h => ha (h ▸ List.mem_cons_self c a')
    have ha' : ',' ∉ a' := fun h => ha (List.mem_cons_of_mem c h)
    simp only [List.cons_append, splitOnComma, if_neg hc, List.append_eq, ih ha']
    rfl

theorem splitOnComma_head_of_comma (v : Str) (hv : v.head? = some ',') :
    (splitOnComma v).head? = some [] := by
  cases v with
  | nil => simp at hv
  | cons c rest =>
    have : c = ',' := by simpa using hv
    subst this
    simp [splitOnComma_comma_cons]

theorem heapGet_heapSet_self (t t' : Nat) (h : Heap) (k v : Str) (ttl : Nat) :
    heapGet t' (heapSet t h k v ttl) k = if t' < t + ttl then v else [] := by
  simp [heapGet, heapSet]

theorem heapGet_record_self (t t' : Nat) (h : Heap) (k a : Str)
    (hfresh : t' < t + 300) :
    heapGet t' (record t h k a) k = heapGet t h k ++ ',' :: a := by
  simp [record, heapGet_heapSet_self, hfresh]

/-- `heapGet` returns either the empty string or a value stored in the heap. -/
theorem heapGet_cases (t : Nat) (h : Heap) (k : Str) :
    heapGet t h k = [] ∨ ∃ dl, (k, heapGet t h k, dl) ∈ h := by
  induction h with
  | nil => exact Or.inl rfl
  | cons e rest ih =>
    obtain ⟨k', v, dl⟩ := e
    by_cases hk : k' = k
    · subst hk
      by_cases ht : t < dl
      · exact Or.inr ⟨dl, by simp [heapGet, ht]⟩
      · simp [heapGet, ht]
    · rcases ih with h0 | ⟨dl', hmem⟩
      · exact Or.inl (by simpa [heapGet, hk] using h0)
      · exact Or.inr ⟨dl', by simp [heapGet, hk]; right; simpa [heapGet, hk] using hmem⟩

theorem findASN_append_some (out1 out2 : List (Nat × Response)) (n : Nat)
    (r : Response) (h : findASN out1 n = some r) :
    findASN (out1 ++ out2) n = some r := by
  induction out1 with
  | nil => simp [findASN] at h
  | cons p rest ih =>
    by_cases hp : p.1 = n
    · simpa [findASN, hp] using h
    · simp [findASN, hp] at h ⊢
      exact ih h

theorem findASN_append_none (out1 out2 : List (Nat × Response)) (n : Nat)
    (h : findASN out1 n = none) :
    findASN (out1 ++ out2) n = findASN out2 n := by
  induction out1 with
  | nil => rfl
  | cons p rest ih =>
    by_cases hp : p.1 = n
    · simp [findASN, hp] at h
    · simp [findASN, hp] at h ⊢
      exact ih h

theorem findASN_singleton_ne (p : Nat × Response) (n : Nat) (h : p.1 ≠ n) :
    findASN [p] n = none := by
  simp [findASN, h]

theorem findASN_mem (out : List (Nat × Response)) (n : Nat) (r : Response)
    (h : findASN out n = some r) : (n, r) ∈ out := by
  induction out with
  | nil => simp [findASN] at h
  | cons p rest ih =>
    by_cases hp : p.1 = n
    · simp [findASN, hp] at h
      subst h
      exact hp ▸ List.mem_cons_self p rest
    · simp [findASN, hp] at h
      exact List.mem_cons_of_mem p (ih h)

theorem findASN_of_mem (out : List (Nat × Response)) (n : Nat) (r : Response)
    (hnd : (out.map Prod.fst).Nodup) (hmem : (n, r) ∈ out) :
    findASN out n = some r := by
  induction out with
  | nil => simp at hmem
  | cons p rest ih =>
    simp only [List.map_cons, List.nodup_cons] at hnd
    rcases List.mem_cons.mp hmem with h | h
    · subst h
      simp [findASN]
    · have hp : p.1 ≠ n := by
        intro hpn
        exact hnd.1 (hpn ▸ List.mem_map.mpr ⟨(n, r), h, rfl⟩)
      simp [findASN, hp]
      exact ih hnd.2 h

theorem findASN_eq_none_iff (out : List (Nat × Response)) (n : Nat) :
    findASN out n = none ↔ ∀ p ∈ out, p.1 ≠ n := by
  induction out with
  | nil => simp [findASN]
  | cons p rest ih =>
    by_cases hp : p.1 = n
    · simp [findASN, hp]
    · simp [findASN, hp, ih]

/-- Once an ASN has an entry in the accumulator, the rest of the Humanize
loop never changes it (main.go 121: insertion only when absent). -/
theorem humanize_mono (db : GeoDB) :
    ∀ (l : List Str) (acc out : List (Nat × Response)) (n : Nat) (r : Response),
      findASN acc n = some r → humanize db l acc = .ok out →
      findASN out n = some r := by
  intro l
  induction l with
  | nil =>
    intro acc out n r hacc hok
    simp [humanize] at hok
    exact hok ▸ hacc
  | cons ip rest ih =>
    intro acc out n r hacc hok
    by_cases hip : ip = []
    · simp [humanize, hip] at hok
      exact hok ▸ hacc
    · simp only [humanize, if_neg hip] at hok
      cases hc : db.country ip with
      | error e => simp [hc] at hok
      | ok iso =>
        cases ha : db.asn ip with
        | error e => simp [hc, ha] at hok
        | ok p =>
          obtain ⟨num, org⟩ := p
          simp only [hc, ha] at hok
          by_cases hins : (findASN acc num).isSome
          · simp only [if_pos hins] at hok
            exact ih acc out n r hacc hok
          · simp only [if_neg hins] at hok
            exact ih _ out n r (findASN_append_some acc _ n r hacc) hok

/-- When distinct addresses of `S` never share an ASN, the ASN keys
contributed by a duplicate-free list of addresses of `S` are themselves
duplicate-free. -/
theorem keys_nodup (db : GeoDB) (S : List Str)
    (hinj : ∀ x ∈ S, ∀ y ∈ S, (enrichPair db x).1 = (enrichPair db y).1 → x = y) :
    ∀ (l : List Str), l.Nodup → (∀ x ∈ l, x ∈ S) →
      (l.map (fun ip => (enrichPair db ip).1)).Nodup := by
  intro l
  induction l with
  | nil => intro _ _; simp
  | cons x l' ih =>
    intro hnd hsub
    rw [List.nodup_cons] at hnd
    rw [List.map_cons, List.nodup_cons]
    refine ⟨?_, ih hnd.2 (fun z hz => hsub z (List.mem_cons_of_mem x hz))⟩
    intro hmem
    obtain ⟨y, hy, hkey⟩ := List.mem_map.mp hmem
    have hyx : y = x :=
      hinj y (hsub y (List.mem_cons_of_mem x hy)) x (hsub x (List.mem_cons_self x l')) hkey
    exact hnd.1 (hyx ▸ hy)

/-- Characterization of a full run of the Humanize loop: with no empty
address (so line 103 never breaks), every lookup succeeding, no ASN of the
list already present in the accumulator, and pairwise-distinct ASNs, the
loop appends exactly one entry per address, in iteration order. -/
theorem humanize_chars (db : GeoDB) :
    ∀ (l : List Str) (acc : List (Nat × Response)),
      [] ∉ l → (∀ ip ∈ l, ResolvesOk db ip) →
      (∀ ip ∈ l, findASN acc ((enrichPair db ip).1) = none) →
      (l.map (fun ip => (enrichPair db ip).1)).Nodup →
      humanize db l acc = .ok (acc ++ l.map (enrichPair db)) := by
  intro l
  induction l with
  | nil => intro acc _ _ _ _; simp [humanize]
  | cons ip rest ih =>
    intro acc hne hok hacc hnd
    have hip : ip ≠ [] := fun h => hne (h ▸ List.mem_cons_self ip rest)
    have hres := hok ip (List.mem_cons_self ip rest)
    rw [ResolvesOk, resolvesOkB] at hres
    cases hc : db.country ip with
    | error e => rw [hc] at hres; simp at hres
    | ok iso =>
    cases ha : db.asn ip with
    | error e => rw [hc, ha] at hres; simp at hres
    | ok p =>
    obtain ⟨num, org⟩ := p
    have hpair : enrichPair db ip = (num, ⟨org, iso, ip⟩) := by
      simp [enrichPair, ha, hc]
    have hguard : findASN acc num = none := by
      have := hacc ip (List.mem_cons_self ip rest)
      rwa [hpair] at this
    rw [List.map_cons, List.nodup_cons] at hnd
    have hne' : [] ∉ rest := fun h => hne (List.mem_cons_of_mem ip h)
    have hok' : ∀ z ∈ rest, ResolvesOk db z :=
      fun z hz => hok z (List.mem_cons_of_mem ip hz)
    have hacc' : ∀ z ∈ rest,
        findASN (acc ++ [(num, ⟨org, iso, ip⟩)]) ((enrichPair db z).1) = none := by
      intro z hz
      have h1 : findASN acc ((enrichPair db z).1) = none :=
        hacc z (List.mem_cons_of_mem ip hz)
      have h2 : num ≠ (enrichPair db z).1 := by
        intro hcontra
        apply hnd.1
        have hfst : (enrichPair db ip).1 = num := by rw [hpair]
        rw [hfst, hcontra]
        exact List.mem_map.mpr ⟨z, hz, rfl⟩
      rw [findASN_append_none _ _ _ h1]
      exact findASN_singleton_ne _ _ h2
    have hrec := ih (acc ++ [(num, ⟨org, iso, ip⟩)]) hne' hok' hacc' hnd.2
    simp only [humanize, if_neg hip, hc, ha, hguard, Option.isSome_none,
      Bool.false_eq_true, if_neg, ite_false]
    rw [hrec]
    simp [hpair, List.append_assoc]

/-- First-seen-wins (main.go 121-127): once the first address resolving to
ASN `n` is processed and inserted, the final entry for `n` is exactly that
address's enrichment, whatever comes later in the iteration. -/
theorem humanize_first_wins (db : GeoDB) (n : Nat) :
    ∀ (pre : List Str) (acc out : List (Nat × Response)),
      [] ∉ pre → (∀ z ∈ pre, asnKey? db z ≠ some n) → findASN acc n = none →
      ∀ (x : Str) (post : List Str) (orgx isox : Str),
        x ≠ [] → db.asn x = .ok (n, orgx) → db.country x = .ok isox →
        humanize db (pre ++ x :: post) acc = .ok out →
        findASN out n = some ⟨orgx, isox, x⟩ := by
  intro pre
  induction pre with
  | nil =>
    intro acc out _ _ hacc x post orgx isox hx hax hcx hok
    rw [List.nil_append] at hok
    simp only [humanize, if_neg hx, hcx, hax, hacc, Option.isSome_none,
      Bool.false_eq_true, if_neg, ite_false] at hok
    have hins : findASN (acc ++ [(n, ⟨orgx, isox, x⟩)]) n
        = some ⟨orgx, isox, x⟩ := by
      rw [findASN_append_none _ _ _ hacc]
      simp [findASN]
    exact humanize_mono db post _ out n _ hins hok
  | cons z pre' ih =>
    intro acc out hne hn hacc x post orgx isox hx hax hcx hok
    have hz : z ≠ [] := fun h => hne (h ▸ List.mem_cons_self z pre')
    have hne' : [] ∉ pre' := fun h => hne (List.mem_cons_of_mem z h)
    have hn' : ∀ w ∈ pre', asnKey? db w ≠ some n :=
      fun w hw => hn w (List.mem_cons_of_mem z hw)
    rw [List.cons_append] at hok
    simp only [humanize, if_neg hz] at hok
    cases hc : db.country z with
    | error e => simp [hc] at hok
    | ok iso =>
      cases ha : db.asn z with
      | error e => simp [hc, ha] at hok
      | ok p =>
        obtain ⟨m, orgz⟩ := p
        have hmn : m ≠ n := by
          intro hcontra
          exact hn z (List.mem_cons_self z pre') (by simp [asnKey?, ha, hcontra])
        simp only [hc, ha] at hok
        by_cases hins : (findASN acc m).isSome
        · simp only [if_pos hins] at hok
          exact ih acc out hne' hn' hacc x post orgx isox hx hax hcx hok
        · simp only [if_neg hins] at hok
          have hacc' : findASN (acc ++ [(m, ⟨orgz, iso, z⟩)]) n = none := by
            rw [findASN_append_none _ _ _ hacc]
            exact findASN_singleton_ne _ _ hmn
          exact ih _ out hne' hn' hacc' x post orgx isox hx hax hcx hok

/-! ## Concrete data for counterexamples and witnesses -/

/-- Concrete datasets matching the spec's literal scenario 2:
`1.2.3.4 ↦ (ExampleISP, 64500, US)`, `5.6.7.8 ↦ (OtherISP, 64501, DE)`;
any other address is absent from both datasets. -/
def dbEx : GeoDB where
  country := fun ip =>
    if ip = "1.2.3.4".data then .ok "US".data
    else if ip = "5.6.7.8".data then .ok "DE".data
    else .error "address not found".data
  asn := fun ip =>
    if ip = "1.2.3.4".data then .ok (64500, "ExampleISP".data)
    else if ip = "5.6.7.8".data then .ok (64501, "OtherISP".data)
    else .error "address not found".data

/-- Datasets with an ASN collision: both known addresses belong to
AS 64500 but with different organizations and countries. -/
def dbColl : GeoDB where
  country := fun ip =>
    if ip = "1.2.3.4".data then .ok "US".data
    else if ip = "5.6.7.8".data then .ok "DE".data
    else .error "address not found".data
  asn := fun ip =>
    if ip = "1.2.3.4".data then .ok (64500, "ExampleISP".data)
    else if ip = "5.6.7.8".data then .ok (64500, "OtherISP".data)
    else .error "address not found".data

/-- Store after recording `1.2.3.4` for domain `d` at time 0. -/
def heapD : Heap := record 0 [] "d".data "1.2.3.4".data

/-- Store after additionally recording `9.9.9.9` (absent from the
datasets) for domain `e` at time 0. -/
def heapD2 : Heap := record 0 heapD "e".data "9.9.9.9".data

/-- A store state whose value for `d` carries two addresses and no
leading separator (the shape the spec's `Read` contract describes). -/
def heapNC : Heap := [("d".data, "1.2.3.4,5.6.7.8".data, 300)]

/-! ## Claims -/

/-- C1 as stated is false on the code: starting from an absent key, two
sequential appends within the TTL window make `Read` return a THREE
element sequence, with a spurious empty string before the two addresses
(the first append concatenates `"," + ip` onto the empty previous
value, main.go 48-49). -/
theorem C1_counterexample :
    readStore 10 (record 5 (record 0 [] "d".data "1.2.3.4".data) "d".data
        "5.6.7.8".data) "d".data
      ≠ ["1.2.3.4".data, "5.6.7.8".data] := by decide

/-- C1 (amended): for every domain `D` and comma-free addresses `a1`,
`a2`, appending `a1` then `a2` within the TTL window, starting from a
state where `D` is absent or expired, makes `Read D` return
`["", a1, a2]`: the two addresses in order, with no duplication and no
loss, preceded by exactly one empty entry. -/
theorem C1_amended (h : Heap) (D a1 a2 : Str) (t1 t2 t3 : Nat)
    (ha1 : ',' ∉ a1) (ha2 : ',' ∉ a2)
    (h0 : heapGet t1 h D = [])
    (hw : t2 < t1 + 300) (hr : t3 < t2 + 300) :
    readStore t3 (record t2 (record t1 h D a1) D a2) D = [[], a1, a2] := by
  have g1 : heapGet t2 (record t1 h D a1) D = ',' :: a1 := by
    rw [heapGet_record_self _ _ _ _ _ hw, h0]
    rfl
  have g2 : heapGet t3 (record t2 (record t1 h D a1) D a2) D
      = ',' :: (a1 ++ ',' :: a2) := by
    rw [heapGet_record_self _ _ _ _ _ hr, g1]
    rfl
  rw [readStore, g2, splitOnComma_comma_cons, splitOnComma_append _ _ ha1,
    splitOnComma_no_comma _ ha2]

/-- Witness for C1 (amended) at a concrete input. -/
theorem C1_witness :
    readStore 10 (record 5 (record 0 [] "d".data "1.2.3.4".data) "d".data
        "5.6.7.8".data) "d".data
      = [[], "1.2.3.4".data, "5.6.7.8".data] :=
  C1_amended [] "d".data "1.2.3.4".data "5.6.7.8".data 0 5 10 (by decide)
    (by decide) (by decide) (by decide) (by decide)

/-- C3: the write path is NOT atomic.  In the interleaving of two
concurrent `ServeDNS` appends to domain `d` where both `cache.Get` reads
happen before either `cache.Set` write, the second write overwrites the
first: `1.2.3.4` is lost from the subsequent read, contradicting the
no-lost-update claim. -/
theorem C3_code_eval :
    readStore 10 (racedAppends 0 [] "d".data "1.2.3.4".data "5.6.7.8".data)
        "d".data
      = [[], "5.6.7.8".data]
    ∧ "1.2.3.4".data
      ∉ readStore 10 (racedAppends 0 [] "d".data "1.2.3.4".data "5.6.7.8".data)
          "d".data := by decide

/-- C6: after an append at time `t` with TTL 300 and no further writes,
any read at a time `tr ≥ t + 300` returns the empty value: the record has
expired.  Reads are pure (`heapGet` returns only the value and cannot
touch the stored deadline), so only writes refresh the deadline. -/
theorem C6_theorem (h : Heap) (t tr : Nat) (k a : Str)
    (hexp : t + 300 ≤ tr) :
    heapGet tr (record t h k a) k = [] := by
  rw [record, heapGet_heapSet_self, if_neg (by omega)]

/-- Witness for C6 at a concrete input. -/
theorem C6_witness :
    heapGet 300 (record 0 [] "d".data "1.2.3.4".data) "d".data = [] :=
  C6_theorem [] 0 300 "d".data "1.2.3.4".data (by decide)

/-- C7 as stated is false on the code: `domain[:len(domain)-1]`
(main.go 43) strips the last character unconditionally, so a domain
WITHOUT a trailing root separator is not left unaltered: recording
`abc` from `9.9.9.9` stores the address under key `ab` and leaves
nothing under `abc`. -/
theorem C7_counterexample :
    serveDNS 0 [] (RemoteAddr.udp "9.9.9.9".data) "abc".data
      = .ok (record 0 [] "ab".data "9.9.9.9".data)
    ∧ heapGet 0 (record 0 [] "ab".data "9.9.9.9".data) "abc".data = [] :=
  ⟨rfl, by decide⟩

/-- C7 (amended): for every domain string and every remote address of a
supported kind (non-empty extracted origin address), the recorder strips
the LAST CHARACTER of the domain unconditionally — which removes the
trailing root separator when one is present — and then appends the
address under the resulting key with the default TTL of 300 s. -/
theorem C7_amended (t : Nat) (h : Heap) (addr : RemoteAddr) (qname : Str)
    (hip : remoteIP addr ≠ []) :
    serveDNS t h addr qname = .ok (record t h qname.dropLast (remoteIP addr)) := by
  simp [serveDNS, hip]

/-- Witness for C7 (amended) at a concrete input. -/
theorem C7_witness :
    serveDNS 0 [] (RemoteAddr.udp "9.9.9.9".data) "x.test.".data
      = .ok (record 0 [] ("x.test.".data.dropLast) "9.9.9.9".data) :=
  C7_amended 0 [] (RemoteAddr.udp "9.9.9.9".data) "x.test.".data (by decide)

/-- C8: on a remote address that is neither UDP nor TCP the handler does
NOT log-and-ignore: it reaches `panic("IP not found?")` (main.go 39),
modelled as the error outcome, terminating the query handler instead of
degrading gracefully. -/
theorem C8_code_eval :
    serveDNS 0 [] RemoteAddr.other "x.test.".data
      = .error "IP not found?".data := rfl

/-- C10: invariant of the write path.  Every value the write path stores
begins with the list separator (a first append to an absent or expired
key stores `"," + ip`, and later appends preserve the prefix), so
splitting any freshly written record yields the empty string as its
first element; and a first append to an absent or expired key stores
exactly `',' :: a`. -/
theorem C10_theorem (h : Heap) (t tr : Nat) (k a : Str) (hI : HeapInv h)
    (hfresh : tr < t + 300) :
    HeapInv (record t h k a)
    ∧ (readStore tr (record t h k a) k).head? = some []
    ∧ (heapGet t h k = [] →
        heapGet tr (record t h k a) k = ',' :: a) := by
  have hval : (heapGet t h k ++ ',' :: a).head? = some ',' := by
    rcases heapGet_cases t h k with h0 | ⟨dl, hmem⟩
    · rw [h0]; rfl
    · have hh := hI _ hmem
      cases hg : heapGet t h k with
      | nil => rfl
      | cons c rest =>
        rw [hg] at hh
        have hc : c = ',' := by simpa using hh
        simp [hc]
  refine ⟨?_, ?_, ?_⟩
  · intro e he
    rw [record, heapSet] at he
    rcases List.mem_cons.mp he with h1 | h1
    · rw [h1]
      exact hval
    · exact hI e (List.mem_of_mem_filter h1)
  · rw [readStore, heapGet_record_self _ _ _ _ _ hfresh]
    exact splitOnComma_head_of_comma _ hval
  · intro h0
    rw [heapGet_record_self _ _ _ _ _ hfresh, h0]
    rfl

/-- Witness for C10 at a concrete input. -/
theorem C10_witness :
    HeapInv (record 0 [] "d".data "1.2.3.4".data)
    ∧ (readStore 10 (record 0 [] "d".data "1.2.3.4".data) "d".data).head?
        = some []
    ∧ (heapGet 0 [] "d".data = [] →
        heapGet 10 (record 0 [] "d".data "1.2.3.4".data) "d".data
          = ',' :: "1.2.3.4".data) :=
  C10_theorem [] 0 10 "d".data "1.2.3.4".data (by decide) (by decide)

/-- C2: the enrichment loop does NOT merely discard empty entries: line
103 of main.go uses `break`, so when the (always-present) empty entry is
iterated first, the loop stops and every remaining address — here the
non-empty, resolvable `1.2.3.4` recorded for `d` — is silently skipped
and no entry is produced for it. -/
theorem C2_code_eval :
    IterOrder [[], "1.2.3.4".data] (allIPs 0 heapD ["d".data])
    ∧ ResolvesOk dbEx "1.2.3.4".data
    ∧ humanize dbEx [[], "1.2.3.4".data] [] = .ok [] :=
  ⟨by decide, by decide, rfl⟩

/-- C4: first-seen-wins on ASN collision.  If `x` is the first processed
address resolving to ASN `n` (nothing before it is empty or maps to `n`)
and a distinct later address `y` also resolves to `n`, then the final
mapping's entry for `n` is exactly `x`'s enrichment — organization,
country and representative IP all come from `x`; nothing of `y` replaces
or merges into it. -/
theorem C4_theorem (db : GeoDB) (pre post : List Str) (x y : Str) (n : Nat)
    (orgx isox orgy : Str) (out : List (Nat × Response))
    (hx : x ≠ []) (hpre : [] ∉ pre)
    (hpren : ∀ z ∈ pre, asnKey? db z ≠ some n)
    (hax : db.asn x = .ok (n, orgx)) (hcx : db.country x = .ok isox)
    (hy : y ∈ post) (hay : db.asn y = .ok (n, orgy)) (hxy : x ≠ y)
    (hok : humanize db (pre ++ x :: post) [] = .ok out) :
    findASN out n = some ⟨orgx, isox, x⟩ :=
  humanize_first_wins db n pre [] out hpre hpren rfl x post orgx isox hx hax
    hcx hok

/-- Witness for C4 at a concrete input: `1.2.3.4` and `5.6.7.8` both
resolve to AS 64500 in `dbColl`; the kept entry is `1.2.3.4`'s. -/
theorem C4_witness :
    findASN [(64500, ⟨"ExampleISP".data, "US".data, "1.2.3.4".data⟩)] 64500
      = some ⟨"ExampleISP".data, "US".data, "1.2.3.4".data⟩ :=
  C4_theorem dbColl [] ["5.6.7.8".data] "1.2.3.4".data "5.6.7.8".data 64500
    "ExampleISP".data "US".data "OtherISP".data
    [(64500, ⟨"ExampleISP".data, "US".data, "1.2.3.4".data⟩)]
    (by decide) (by decide) (by decide) rfl rfl (by decide) rfl (by decide) rfl

/-- C5: a resolution failure does NOT always abort the whole request.
With the iteration order `1.2.3.4`, `""`, `9.9.9.9`, the loop enriches
`1.2.3.4`, then BREAKS on the empty entry (main.go 103) before ever
reaching `9.9.9.9` — whose lookup would fail — and the request succeeds
with a partial, non-empty mapping instead of aborting. -/
theorem C5_code_eval :
    IterOrder ["1.2.3.4".data, [], "9.9.9.9".data]
        (allIPs 0 heapD2 ["d".data, "e".data])
    ∧ dbEx.asn "9.9.9.9".data = .error "address not found".data
    ∧ humanize dbEx ["1.2.3.4".data, [], "9.9.9.9".data] []
        = .ok [(64500, ⟨"ExampleISP".data, "US".data, "1.2.3.4".data⟩)] :=
  ⟨by decide, rfl, rfl⟩

/-- C9 as stated is false on the code: for the same store state and the
same domain list, two legal iteration orders over the deduplicated
address set — both containing the empty entry every recorded domain
contributes — produce different mappings: one run breaks immediately and
returns the empty mapping, the other enriches `1.2.3.4` first. -/
theorem C9_counterexample :
    IterOrder [[], "1.2.3.4".data] (allIPs 0 heapD ["d".data])
    ∧ IterOrder ["1.2.3.4".data, []] (allIPs 0 heapD ["d".data])
    ∧ humanize dbEx [[], "1.2.3.4".data] [] = .ok []
    ∧ humanize dbEx ["1.2.3.4".data, []] []
        = .ok [(64500, ⟨"ExampleISP".data, "US".data, "1.2.3.4".data⟩)]
    ∧ findASN ([] : List (Nat × Response)) 64500
        ≠ findASN [(64500, ⟨"ExampleISP".data, "US".data, "1.2.3.4".data⟩)]
            64500 :=
  ⟨by decide, by decide, rfl, rfl, by decide⟩

/-- C9 (amended): the aggregation result is a deterministic function of
the store state, the request AND the iteration order over the
deduplicated address set; it is order-independent only when the set
contains no empty entry, every address of the set resolves, and no two
distinct addresses share a network identifier — then any two iteration
orders return identical mappings. -/
theorem C9_amended (db : GeoDB) (t : Nat) (h : Heap)
    (domains o1 o2 : List Str) (out1 out2 : List (Nat × Response))
    (ho1 : IterOrder o1 (allIPs t h domains))
    (ho2 : IterOrder o2 (allIPs t h domains))
    (hne : [] ∉ allIPs t h domains)
    (hok : ∀ ip ∈ allIPs t h domains, ResolvesOk db ip)
    (hinj : ∀ x ∈ allIPs t h domains, ∀ y ∈ allIPs t h domains,
        (enrichPair db x).1 = (enrichPair db y).1 → x = y)
    (e1 : humanize db o1 [] = .ok out1)
    (e2 : humanize db o2 [] = .ok out2) :
    ∀ n, findASN out1 n = findASN out2 n := by
  obtain ⟨nd1, sub1, sup1⟩ := ho1
  obtain ⟨nd2, sub2, sup2⟩ := ho2
  have hne1 : [] ∉ o1 := fun hm => hne (sub1 [] hm)
  have hne2 : [] ∉ o2 := fun hm => hne (sub2 [] hm)
  have hok1 : ∀ ip ∈ o1, ResolvesOk db ip := fun ip hm => hok ip (sub1 ip hm)
  have hok2 : ∀ ip ∈ o2, ResolvesOk db ip := fun ip hm => hok ip (sub2 ip hm)
  have hk1 := keys_nodup db (allIPs t h domains) hinj o1 nd1 sub1
  have hk2 := keys_nodup db (allIPs t h domains) hinj o2 nd2 sub2
  have hc1 := humanize_chars db o1 [] hne1 hok1 (fun ip _ => rfl) hk1
  have hc2 := humanize_chars db o2 [] hne2 hok2 (fun ip _ => rfl) hk2
  rw [hc1] at e1
  rw [hc2] at e2
  have ho1' : out1 = o1.map (enrichPair db) := by
    injection e1 with e1'
    rw [List.nil_append] at e1'
    exact e1'.symm
  have ho2' : out2 = o2.map (enrichPair db) := by
    injection e2 with e2'
    rw [List.nil_append] at e2'
    exact e2'.symm
  subst ho1' ho2'
  have hperm : List.Perm o1 o2 :=
    (List.perm_ext_iff_of_nodup nd1 nd2).mpr
      (fun a => ⟨fun hm => sup2 a (sub1 a hm), fun hm => sup1 a (sub2 a hm)⟩)
  have hpm : List.Perm (o1.map (enrichPair db)) (o2.map (enrichPair db)) :=
    hperm.map _
  have hk2' : ((o2.map (enrichPair db)).map Prod.fst).Nodup := by
    rw [List.map_map]
    exact hk2
  intro n
  cases hf : findASN (o1.map (enrichPair db)) n with
  | none =>
    symm
    rw [findASN_eq_none_iff] at hf ⊢
    intro p hp
    exact hf p (hpm.mem_iff.mpr hp)
  | some r =>
    exact (findASN_of_mem _ _ _ hk2'
      (hpm.mem_iff.mp (findASN_mem _ _ _ hf))).symm

/-- Witness for C9 (amended): on a store whose value for `d` holds two
comma-separated addresses with no leading separator, the two opposite
iteration orders yield the same entry for AS 64500. -/
theorem C9_witness :
    findASN (["1.2.3.4".data, "5.6.7.8".data].map (enrichPair dbEx)) 64500
      = findASN (["5.6.7.8".data, "1.2.3.4".data].map (enrichPair dbEx))
          64500 :=
  C9_amended dbEx 0 heapNC ["d".data]
    ["1.2.3.4".data, "5.6.7.8".data] ["5.6.7.8".data, "1.2.3.4".data]
    (["1.2.3.4".data, "5.6.7.8".data].map (enrichPair dbEx))
    (["5.6.7.8".data, "1.2.3.4".data].map (enrichPair dbEx))
    (by decide) (by decide) (by decide) (by decide) (by decide) rfl rfl 64500

